import Mathlib

/-!
Shallow embedding of the proxy-signal library (src/src/index.tsx).

The library maintains module-level mutable state: a capture flag
`isRunningEffect`, a working set `effectDependencies`, and per-signal
listener sets.  We model this state explicitly as a `World`, JavaScript
values stored in signals as `PValue` (marking which object nodes carry the
`recursiveProxy` set trap), and effect callbacks as small programs `Prog`
interpreted by `runP`, which returns the final world together with an
ordered event trace: one `Ev.invoke cb` per listener invocation performed
by a notification pass, and one `Ev.readEv s` per read of a signal's
`value` property through the outer cell's get trap.
-/

namespace ProxySignal

abbrev SigId := Nat
abbrev CbId := Nat

/-- JavaScript values as stored in a signal: primitives (`leaf`), `null`,
arrays, plain objects, and objects wrapped by `recursiveProxy` (`proxied`),
whose set trap fires the owning signal's `notifyListeners`. -/
inductive PValue where
  | leaf (n : Int)
  | nullV
  | arr (elems : List PValue)
  | plain (fields : List (String × PValue))
  | proxied (fields : List (String × PValue))
deriving Repr

/-- Property keys used on a path below `signal.value`: object fields and
array indices. -/
inductive Key where
  | fld (name : String)
  | idx (i : Nat)
deriving Repr, DecidableEq

/-- Condition `typeof v === "object" && v !== null && !Array.isArray(v)`
from the source (true for plain objects and for proxy-wrapped objects). -/
def isObjLike : PValue → Bool
  | .plain _ => true
  | .proxied _ => true
  | _ => false

mutual
/-- Embeds `recursiveProxy` (src/src/index.tsx lines 12-37): rebuild the
object from its own keys, recursively wrapping each field whose value is a
non-null non-array object, and put the notifying set trap on the result. -/
def recursiveProxy : PValue → PValue
  | .plain fs => .proxied (wrapFields fs)
  | .proxied fs => .proxied (wrapFields fs)
  | v => v

/-- Embeds the `Object.keys(obj).reduce` walk inside `recursiveProxy`. -/
def wrapFields : List (String × PValue) → List (String × PValue)
  | [] => []
  | (k, v) :: rest =>
      (k, if isObjLike v then recursiveProxy v else v) :: wrapFields rest
end

/-- Field lookup on an object's field list (first match wins). -/
def lookupField : List (String × PValue) → String → Option PValue
  | [], _ => none
  | (k, v) :: rest, n => if k = n then some v else lookupField rest n

/-- Field update on an object's field list; a missing key is appended,
matching JavaScript property creation on assignment. -/
def setField : List (String × PValue) → String → PValue → List (String × PValue)
  | [], n, v => [(n, v)]
  | (k, w) :: rest, n, v =>
      if k = n then (k, v) :: rest else (k, w) :: setField rest n v

/-- Assignment of the final key of a path on its parent node.  The boolean
records whether a `recursiveProxy` set trap fired (only `proxied` parents
notify; plain objects, arrays and primitives mutate or no-op silently).
`none` models a thrown TypeError (assigning a property on `null`, or a
key/parent shape mismatch). -/
def setLast : PValue → Key → PValue → Option (PValue × Bool)
  | .proxied fs, .fld n, v => some (.proxied (setField fs n v), true)
  | .plain fs, .fld n, v => some (.plain (setField fs n v), false)
  | .arr es, .idx i, v => some (.arr (es.set i v), false)
  | .leaf m, _, _ => some (.leaf m, false)
  | _, _, _ => none

/-- Child access while traversing a path (inner proxies have no get trap,
so this is pure). -/
def childAt : PValue → Key → Option PValue
  | .proxied fs, .fld n => lookupField fs n
  | .plain fs, .fld n => lookupField fs n
  | .arr es, .idx i => es.get? i
  | _, _ => none

/-- Rebuild a node with one child replaced (models in-place mutation of the
child found at that key). -/
def setChild : PValue → Key → PValue → PValue
  | .proxied fs, .fld n, c => .proxied (setField fs n c)
  | .plain fs, .fld n, c => .plain (setField fs n c)
  | .arr es, .idx i, c => .arr (es.set i c)
  | cur, _, _ => cur

/-- Embeds a nested assignment `cur.k1.k2...kn = v`: traverse to the parent
of the final key and assign there; the boolean is true exactly when the
final parent is a `proxied` node, i.e. when `notifyListeners` fired. -/
def setAtPath (cur : PValue) (ks : List Key) (v : PValue) : Option (PValue × Bool) :=
  match ks with
  | [] => none
  | k :: rest =>
    match rest with
    | [] => setLast cur k v
    | _ :: _ =>
      match childAt cur k with
      | none => none
      | some c =>
        match setAtPath c rest v with
        | none => none
        | some (c', b) => some (setChild cur k c', b)

/-- Holds when, starting from a value, the path traverses plain-object
fields and its final parent is a plain (non-array, non-null) object — i.e.
the path assigns to a nested object-valued position of the original value. -/
def objParentPath (v : PValue) : List Key → Bool
  | [] => false
  | [k] =>
    match v, k with
    | .plain _, .fld _ => true
    | _, _ => false
  | k :: k2 :: ks =>
    match v, k with
    | .plain fs, .fld n =>
      match lookupField fs n with
      | some c => objParentPath c (k2 :: ks)
      | none => false
    | _, _ => false

/-- Holds when the path traverses plain-object fields and array elements
and its final parent is an array (final key an index). -/
def arrParentPath (v : PValue) : List Key → Bool
  | [] => false
  | [k] =>
    match v, k with
    | .arr _, .idx _ => true
    | _, _ => false
  | k :: k2 :: ks =>
    match v, k with
    | .plain fs, .fld n =>
      match lookupField fs n with
      | some c => arrParentPath c (k2 :: ks)
      | none => false
    | .arr es, .idx i =>
      match es.get? i with
      | some c => arrParentPath c (k2 :: ks)
      | none => false
    | _, _ => false

/-- Per-signal state: the stored payload and the listener set (`Set` of
callbacks, modelled as an insertion-ordered duplicate-free list of callback
identities). -/
structure SignalState where
  payload : PValue
  listeners : List CbId
deriving Repr

/-- The module-level mutable state of the library: all created signals,
the id for the next signal, the `isRunningEffect` flag, and the
`effectDependencies` working set (insertion-ordered). -/
structure World where
  signals : List (SigId × SignalState)
  nextId : Nat
  isRunningEffect : Bool
  effectDependencies : List SigId
deriving Repr

/-- Signal lookup in the world's signal table. -/
def lookupSig : List (SigId × SignalState) → SigId → Option SignalState
  | [], _ => none
  | (i, st) :: rest, s => if i = s then some st else lookupSig rest s

def World.lookupSignal (w : World) (s : SigId) : Option SignalState :=
  lookupSig w.signals s

/-- Replace the state of signal `s` in the table. -/
def setSigList : List (SigId × SignalState) → SigId → SignalState →
    List (SigId × SignalState)
  | [], _, _ => []
  | (i, old) :: rest, s, st =>
      if i = s then (s, st) :: setSigList rest s st
      else (i, old) :: setSigList rest s st

def World.setSignal (w : World) (s : SigId) (st : SignalState) : World :=
  { w with signals := setSigList w.signals s st }

/-- Embeds `effectDependencies.add(signal)`: a JavaScript `Set` keeps
insertion order and ignores re-insertion. -/
def addDep (l : List SigId) (s : SigId) : List SigId :=
  if s ∈ l then l else l ++ [s]

/-- Embeds `createSignal` (lines 47-97): wrap a non-null non-array object
initial value with `recursiveProxy`, allocate the signal with an empty
listener set.  (The module-level `store` map is write-only bookkeeping and
is omitted.) -/
def createSignal (w : World) (init : PValue) : SigId × World :=
  let payload := if isObjLike init then recursiveProxy init else init
  let s := w.nextId
  (s, { w with
          signals := w.signals ++ [(s, ⟨payload, []⟩)],
          nextId := s + 1 })

/-- Embeds the outer cell's get trap (lines 78-83): reading `value` while
`isRunningEffect` is set adds this signal to the working set; no other
read has a state effect. -/
def getTrap (w : World) (s : SigId) (prop : String) : World :=
  if prop = "value" && w.isRunningEffect then
    { w with effectDependencies := addDep w.effectDependencies s }
  else w

/-- Embeds the outer cell's set trap (lines 84-92): writing `value` stores
the new payload and notifies the current listeners (returned here as the
invocation list); any other property is rejected with `false`, no state
change and no notification. -/
def setTrap (w : World) (s : SigId) (prop : String) (v : PValue) :
    Bool × World × List CbId :=
  if prop = "value" then
    match w.lookupSignal s with
    | some st => (true, w.setSignal s { st with payload := v }, st.listeners)
    | none => (true, w, [])
  else (false, w, [])

/-- Embeds `subscribe` (lines 70-75): `listeners.add(callback)` — keyed by
reference, re-adding an existing callback is a no-op. -/
def subscribeFn (w : World) (s : SigId) (cb : CbId) : World :=
  match w.lookupSignal s with
  | some st =>
      w.setSignal s
        { st with
            listeners :=
              if cb ∈ st.listeners then st.listeners
              else st.listeners ++ [cb] }
  | none => w

/-- Embeds the unsubscribe closure returned by `subscribe`:
`listeners.delete(callback)` — removes exactly that reference, a no-op when
absent. -/
def unsubscribeFn (w : World) (s : SigId) (cb : CbId) : World :=
  match w.lookupSignal s with
  | some st =>
      w.setSignal s { st with listeners := st.listeners.filter (· != cb) }
  | none => w

/-- Observable events of a run: a listener invocation performed by a
notification pass, or a read of a signal's `value` through the outer get
trap. -/
inductive Ev where
  | invoke (cb : CbId)
  | readEv (s : SigId)
deriving Repr, DecidableEq

inductive Outcome where
  | ok
  | threw
deriving Repr, DecidableEq

/-- Effect-callback bodies and driver code: property reads and writes on
signals, nested-path writes through the value, sequencing, (statically
decided) branching, and throwing. -/
inductive Prog where
  | skip
  | readProp (s : SigId) (prop : String)
  | writeProp (s : SigId) (prop : String) (v : PValue)
  | writePath (s : SigId) (path : List Key) (v : PValue)
  | seq (p q : Prog)
  | branch (c : Bool) (p q : Prog)
  | throwErr
deriving Repr

/-- Interpreter.  Listener invocations are recorded as `Ev.invoke` events
in program order (the notification pass is synchronous, inside the write
step); reads of `value` through the get trap are recorded as `Ev.readEv`.
A nested write `s.value.k1...kn = v` first reads `value` through the get
trap, then traverses inner nodes (which have no get trap) and assigns at
the final parent, notifying exactly when that parent carries the
`recursiveProxy` set trap. -/
def runP : Prog → World → World × List Ev × Outcome
  | .skip, w => (w, [], .ok)
  | .readProp s prop, w =>
      (getTrap w s prop, if prop = "value" then [.readEv s] else [], .ok)
  | .writeProp s prop v, w =>
      let r := setTrap w s prop v
      (r.2.1, r.2.2.map .invoke, .ok)
  | .writePath s path v, w =>
      let w1 := getTrap w s "value"
      match w1.lookupSignal s with
      | none => (w1, [.readEv s], .threw)
      | some st =>
        match setAtPath st.payload path v with
        | none => (w1, [.readEv s], .threw)
        | some (p', b) =>
            (w1.setSignal s { st with payload := p' },
             .readEv s :: (if b then st.listeners.map .invoke else []),
             .ok)
  | .seq p q, w =>
      let r := runP p w
      match r.2.2 with
      | .ok =>
          let r2 := runP q r.1
          (r2.1, r.2.1 ++ r2.2.1, r2.2.2)
      | .threw => r
  | .branch c p q, w => if c then runP p w else runP q w
  | .throwErr, w => (w, [], .threw)

/-- The signals whose `value` was read, in event order. -/
def valueReads (tr : List Ev) : List SigId :=
  tr.filterMap fun e => match e with | .readEv s => some s | .invoke _ => none

/-- First-occurrence deduplication, as produced by inserting a read
sequence into a JavaScript `Set` and converting back with `Array.from`. -/
def dedupFirst (l : List SigId) : List SigId :=
  l.foldl addDep []

/-- Embeds `getDependenciesFromEffect` (lines 157-164), statement by
statement: set the flag, run the callback, and — only if it returned
normally — clear the flag, snapshot the working set, clear it and return
the snapshot.  A throwing callback propagates (`Except.error`) with the
flag still set and the working set not cleared, exactly as in the source,
which has no try/finally. -/
def getDependenciesFromEffect (body : Prog) (w : World) :
    Except World (List SigId × World × List Ev) :=
  let w1 := { w with isRunningEffect := true }
  let r := runP body w1
  match r.2.2 with
  | .ok =>
      let w2 := { r.1 with isRunningEffect := false }
      .ok (w2.effectDependencies, { w2 with effectDependencies := [] }, r.2.1)
  | .threw => .error r.1

/-- Embeds `signalEffect` (lines 172-180): capture the dependencies of one
run of the callback, then subscribe the callback to each of them; returns
the dependency list (from which the bundled unsubscribe handle is built). -/
def signalEffect (cb : CbId) (body : Prog) (w : World) :
    Except World (World × List SigId) :=
  match getDependenciesFromEffect body w with
  | .error w2 => .error w2
  | .ok (deps, w2, _) =>
      .ok (deps.foldl (fun acc s => subscribeFn acc s cb) w2, deps)

/-- Embeds the unsubscribe closure returned by `signalEffect`: run every
collected per-dependency unsubscribe. -/
def effectTeardown (deps : List SigId) (cb : CbId) (w : World) : World :=
  deps.foldl (fun acc s => unsubscribeFn acc s cb) w

/-! Helper lemmas about the state operations. -/

theorem lookupSig_setSigList (l : List (SigId × SignalState)) (s s' : SigId)
    (st : SignalState) :
    lookupSig (setSigList l s st) s' =
      if s' = s then (lookupSig l s).map (fun _ => st) else lookupSig l s' := by
  induction l with
  | nil => simp [lookupSig, setSigList]
  | cons hd tl ih =>
    obtain ⟨k, v⟩ := hd
    by_cases hk : k = s
    · subst hk
      by_cases hs' : s' = k
      · subst hs'; simp [lookupSig, setSigList, ih]
      · simp [lookupSig, setSigList, hs', ih, Ne.symm hs']
    · by_cases hs' : s' = s
      · subst hs'
        simp [lookupSig, setSigList, hk, ih, Ne.symm hk]
      · by_cases hks' : k = s'
        · subst hks'; simp [lookupSig, setSigList, hk, hs', ih]
        · simp [lookupSig, setSigList, hk, hks', hs', ih]

@[simp] theorem lookupSignal_setSignal (w : World) (s s' : SigId) (st : SignalState) :
    (w.setSignal s st).lookupSignal s' =
      if s' = s then (w.lookupSignal s).map (fun _ => st) else w.lookupSignal s' :=
  lookupSig_setSigList w.signals s s' st

@[simp] theorem setSignal_isRunningEffect (w : World) (s : SigId) (st : SignalState) :
    (w.setSignal s st).isRunningEffect = w.isRunningEffect := rfl

@[simp] theorem setSignal_effectDependencies (w : World) (s : SigId) (st : SignalState) :
    (w.setSignal s st).effectDependencies = w.effectDependencies := rfl

@[simp] theorem getTrap_signals (w : World) (s : SigId) (prop : String) :
    (getTrap w s prop).signals = w.signals := by
  unfold getTrap; split <;> rfl

@[simp] theorem getTrap_isRunningEffect (w : World) (s : SigId) (prop : String) :
    (getTrap w s prop).isRunningEffect = w.isRunningEffect := by
  unfold getTrap; split <;> rfl

@[simp] theorem getTrap_lookupSignal (w : World) (s : SigId) (prop : String) (s' : SigId) :
    (getTrap w s prop).lookupSignal s' = w.lookupSignal s' := by
  unfold World.lookupSignal; rw [getTrap_signals]

theorem setTrap_isRunningEffect (w : World) (s : SigId) (prop : String) (v : PValue) :
    (setTrap w s prop v).2.1.isRunningEffect = w.isRunningEffect := by
  unfold setTrap
  split
  · split <;> simp
  · rfl

theorem setTrap_effectDependencies (w : World) (s : SigId) (prop : String) (v : PValue) :
    (setTrap w s prop v).2.1.effectDependencies = w.effectDependencies := by
  unfold setTrap
  split
  · split <;> simp
  · rfl

theorem setTrap_listeners (w : World) (s : SigId) (prop : String) (v : PValue) (s' : SigId) :
    ((setTrap w s prop v).2.1.lookupSignal s').map SignalState.listeners =
      (w.lookupSignal s').map SignalState.listeners := by
  unfold setTrap
  split
  · split
    · rename_i st h
      by_cases hs' : s' = s
      · subst hs'; simp [h]
      · simp [hs']
    · rfl
  · rfl

@[simp] theorem valueReads_nil : valueReads [] = [] := rfl

@[simp] theorem valueReads_cons_invoke (cb : CbId) (tr : List Ev) :
    valueReads (.invoke cb :: tr) = valueReads tr := rfl

@[simp] theorem valueReads_cons_read (s : SigId) (tr : List Ev) :
    valueReads (.readEv s :: tr) = s :: valueReads tr := rfl

@[simp] theorem valueReads_append (t1 t2 : List Ev) :
    valueReads (t1 ++ t2) = valueReads t1 ++ valueReads t2 :=
  List.filterMap_append t1 t2 _

@[simp] theorem valueReads_invokes (l : List CbId) :
    valueReads (l.map .invoke) = [] := by
  induction l with
  | nil => rfl
  | cons hd tl ih => simpa using ih

/-! Invariants of the interpreter. -/

theorem runP_isRunningEffect (p : Prog) :
    ∀ w : World, (runP p w).1.isRunningEffect = w.isRunningEffect := by
  induction p with
  | skip => intro w; rfl
  | readProp s prop => intro w; simp [runP]
  | writeProp s prop v => intro w; simpa [runP] using setTrap_isRunningEffect w s prop v
  | writePath s path v =>
    intro w
    simp only [runP]
    split
    · simp
    · split
      · simp
      · simp
  | seq p q ihp ihq =>
    intro w
    simp only [runP]
    split
    · rw [ihq, ihp]
    · exact ihp w
  | branch c p q ihp ihq =>
    intro w
    simp only [runP]
    split
    · exact ihp w
    · exact ihq w
  | throwErr => intro w; rfl

theorem runP_listeners (p : Prog) :
    ∀ (w : World) (s' : SigId),
      ((runP p w).1.lookupSignal s').map SignalState.listeners =
        (w.lookupSignal s').map SignalState.listeners := by
  induction p with
  | skip => intro w s'; rfl
  | readProp s prop => intro w s'; simp [runP]
  | writeProp s prop v => intro w s'; simpa [runP] using setTrap_listeners w s prop v s'
  | writePath s path v =>
    intro w s'
    simp only [runP]
    cases hlk : (getTrap w s "value").lookupSignal s with
    | none => simp [hlk]
    | some st =>
      cases hsp : setAtPath st.payload path v with
      | none => simp [hlk, hsp]
      | some pb =>
        obtain ⟨p2, b⟩ := pb
        simp only [hlk, hsp]
        by_cases hs' : s' = s
        · subst hs'
          simp only [getTrap_lookupSignal] at hlk
          simp [hlk]
        · simp [hs']
  | seq p q ihp ihq =>
    intro w s'
    simp only [runP]
    split
    · rw [ihq, ihp]
    · exact ihp w s'
  | branch c p q ihp ihq =>
    intro w s'
    simp only [runP]
    split
    · exact ihp w s'
    · exact ihq w s'
  | throwErr => intro w s'; rfl

theorem runP_deps_true (p : Prog) :
    ∀ w : World, w.isRunningEffect = true →
      (runP p w).1.effectDependencies =
        (valueReads (runP p w).2.1).foldl addDep w.effectDependencies := by
  induction p with
  | skip => intro w _; rfl
  | readProp s prop =>
    intro w hf
    by_cases hp : prop = "value" <;> simp [runP, getTrap, hp, hf]
  | writeProp s prop v =>
    intro w _
    simpa [runP] using setTrap_effectDependencies w s prop v
  | writePath s path v =>
    intro w hf
    have hg : (getTrap w s "value").effectDependencies = addDep w.effectDependencies s := by
      simp [getTrap, hf]
    simp only [runP]
    cases hlk : (getTrap w s "value").lookupSignal s with
    | none => simp [hlk, hg]
    | some st =>
      cases hsp : setAtPath st.payload path v with
      | none => simp [hlk, hsp, hg]
      | some pb =>
        obtain ⟨p2, b⟩ := pb
        cases b <;> simp [hlk, hsp, hg]
  | seq p q ihp ihq =>
    intro w hf
    simp only [runP]
    split
    · have hf1 : (runP p w).1.isRunningEffect = true := by
        rw [runP_isRunningEffect]; exact hf
      rw [ihq _ hf1, ihp _ hf, valueReads_append, List.foldl_append]
    · exact ihp w hf
  | branch c p q ihp ihq =>
    intro w hf
    simp only [runP]
    split
    · exact ihp w hf
    · exact ihq w hf
  | throwErr => intro w _; rfl

theorem runP_deps_false (p : Prog) :
    ∀ w : World, w.isRunningEffect = false →
      (runP p w).1.effectDependencies = w.effectDependencies := by
  induction p with
  | skip => intro w _; rfl
  | readProp s prop => intro w hf; simp [runP, getTrap, hf]
  | writeProp s prop v =>
    intro w _
    simpa [runP] using setTrap_effectDependencies w s prop v
  | writePath s path v =>
    intro w hf
    have hg : (getTrap w s "value").effectDependencies = w.effectDependencies := by
      simp [getTrap, hf]
    simp only [runP]
    cases hlk : (getTrap w s "value").lookupSignal s with
    | none => simp [hlk, hg]
    | some st =>
      cases hsp : setAtPath st.payload path v with
      | none => simp [hlk, hsp, hg]
      | some pb =>
        obtain ⟨p2, b⟩ := pb
        simp [hlk, hsp, hg]
  | seq p q ihp ihq =>
    intro w hf
    simp only [runP]
    split
    · have hf1 : (runP p w).1.isRunningEffect = false := by
        rw [runP_isRunningEffect]; exact hf
      rw [ihq _ hf1, ihp _ hf]
    · exact ihp w hf
  | branch c p q ihp ihq =>
    intro w hf
    simp only [runP]
    split
    · exact ihp w hf
    · exact ihq w hf
  | throwErr => intro w _; rfl

/-! Lemmas about `recursiveProxy` wrapping and nested-path assignment. -/

theorem wrapFields_lookup (fs : List (String × PValue)) (n : String) :
    lookupField (wrapFields fs) n =
      (lookupField fs n).map fun v => if isObjLike v then recursiveProxy v else v := by
  induction fs with
  | nil => rfl
  | cons hd tl ih =>
    obtain ⟨k, v⟩ := hd
    by_cases hk : k = n <;> simp [wrapFields, lookupField, hk, ih]

theorem setField_lookup_self (fs : List (String × PValue)) (n : String) (v : PValue) :
    lookupField (setField fs n v) n = some v := by
  induction fs with
  | nil => simp [setField, lookupField]
  | cons hd tl ih =>
    obtain ⟨k, w⟩ := hd
    by_cases hk : k = n <;> simp [setField, lookupField, hk, ih]

theorem objParentPath_plain {o : PValue} {ks : List Key}
    (h : objParentPath o ks = true) : ∃ fs, o = .plain fs := by
  cases ks with
  | nil => simp [objParentPath] at h
  | cons k rest =>
    cases rest with
    | nil => cases o <;> cases k <;> simp_all [objParentPath]
    | cons k2 ks2 => cases o <;> cases k <;> simp_all [objParentPath]

theorem arrParentPath_shape {o : PValue} {ks : List Key}
    (h : arrParentPath o ks = true) :
    (∃ fs, o = .plain fs) ∨ (∃ es, o = .arr es) := by
  cases ks with
  | nil => simp [arrParentPath] at h
  | cons k rest =>
    cases rest with
    | nil => cases o <;> cases k <;> simp_all [arrParentPath]
    | cons k2 ks2 => cases o <;> cases k <;> simp_all [arrParentPath]

theorem recursiveProxy_plain (fs : List (String × PValue)) :
    recursiveProxy (.plain fs) = .proxied (wrapFields fs) := rfl

theorem recursiveProxy_arr (es : List PValue) :
    recursiveProxy (.arr es) = .arr es := rfl

theorem setAtPath_one (cur : PValue) (k : Key) (v : PValue) :
    setAtPath cur [k] v = setLast cur k v := rfl

theorem setAtPath_cons_cons (cur : PValue) (k k2 : Key) (ks : List Key) (v : PValue) :
    setAtPath cur (k :: k2 :: ks) v =
      match childAt cur k with
      | none => none
      | some c =>
        match setAtPath c (k2 :: ks) v with
        | none => none
        | some (c', b) => some (setChild cur k c', b) := rfl

theorem setAtPath_wrap_obj (ks : List Key) :
    ∀ (o v : PValue), objParentPath o ks = true →
      ∃ p2, setAtPath (recursiveProxy o) ks v = some (p2, true) := by
  induction ks with
  | nil => intro o v h; simp [objParentPath] at h
  | cons k rest ih =>
    intro o v h
    obtain ⟨fs, rfl⟩ := objParentPath_plain h
    cases rest with
    | nil =>
      cases k with
      | fld n =>
        exact ⟨.proxied (setField (wrapFields fs) n v),
          by rw [recursiveProxy_plain, setAtPath_one]; rfl⟩
      | idx i => simp [objParentPath] at h
    | cons k2 ks2 =>
      cases k with
      | idx i => simp [objParentPath] at h
      | fld n =>
        simp only [objParentPath] at h
        cases hc : lookupField fs n with
        | none => rw [hc] at h; simp at h
        | some c =>
          rw [hc] at h
          obtain ⟨cs, rfl⟩ := objParentPath_plain h
          obtain ⟨c2, hrec⟩ := ih (.plain cs) v h
          refine ⟨setChild (.proxied (wrapFields fs)) (.fld n) c2, ?_⟩
          have h2 : childAt (.proxied (wrapFields fs)) (.fld n) =
              some (recursiveProxy (.plain cs)) := by
            simp [childAt, wrapFields_lookup, hc, isObjLike]
          rw [recursiveProxy_plain, setAtPath_cons_cons]
          simp only [h2, hrec]

theorem setAtPath_raw_arr (ks : List Key) :
    ∀ (o v : PValue), arrParentPath o ks = true →
      ∃ p2, setAtPath o ks v = some (p2, false) := by
  induction ks with
  | nil => intro o v h; simp [arrParentPath] at h
  | cons k rest ih =>
    intro o v h
    cases rest with
    | nil =>
      rcases arrParentPath_shape h with ⟨fs, rfl⟩ | ⟨es, rfl⟩
      · cases k <;> simp [arrParentPath] at h
      · cases k with
        | fld n => simp [arrParentPath] at h
        | idx i => exact ⟨.arr (es.set i v), by rw [setAtPath_one]; rfl⟩
    | cons k2 ks2 =>
      rcases arrParentPath_shape h with ⟨fs, rfl⟩ | ⟨es, rfl⟩
      · cases k with
        | idx i => simp [arrParentPath] at h
        | fld n =>
          simp only [arrParentPath] at h
          cases hc : lookupField fs n with
          | none => rw [hc] at h; simp at h
          | some c =>
            rw [hc] at h
            obtain ⟨c2, hrec⟩ := ih c v h
            refine ⟨setChild (.plain fs) (.fld n) c2, ?_⟩
            have h2 : childAt (.plain fs) (.fld n) = some c := hc
            rw [setAtPath_cons_cons]
            simp only [h2, hrec]
      · cases k with
        | fld n => simp [arrParentPath] at h
        | idx i =>
          simp only [arrParentPath] at h
          cases hc : es.get? i with
          | none => rw [hc] at h; simp at h
          | some c =>
            rw [hc] at h
            obtain ⟨c2, hrec⟩ := ih c v h
            refine ⟨setChild (.arr es) (.idx i) c2, ?_⟩
            have h2 : childAt (.arr es) (.idx i) = some c := hc
            rw [setAtPath_cons_cons]
            simp only [h2, hrec]

theorem setAtPath_wrap_arr (ks : List Key) :
    ∀ (o v : PValue), arrParentPath o ks = true →
      ∃ p2, setAtPath (recursiveProxy o) ks v = some (p2, false) := by
  induction ks with
  | nil => intro o v h; simp [arrParentPath] at h
  | cons k rest ih =>
    intro o v h
    rcases arrParentPath_shape h with ⟨fs, rfl⟩ | ⟨es, rfl⟩
    · cases rest with
      | nil => cases k <;> simp [arrParentPath] at h
      | cons k2 ks2 =>
        cases k with
        | idx i => simp [arrParentPath] at h
        | fld n =>
          simp only [arrParentPath] at h
          cases hc : lookupField fs n with
          | none => rw [hc] at h; simp at h
          | some c =>
            rw [hc] at h
            rcases arrParentPath_shape h with ⟨cs, rfl⟩ | ⟨es2, rfl⟩
            · obtain ⟨c2, hrec⟩ := ih (.plain cs) v h
              refine ⟨setChild (.proxied (wrapFields fs)) (.fld n) c2, ?_⟩
              have h2 : childAt (.proxied (wrapFields fs)) (.fld n) =
                  some (recursiveProxy (.plain cs)) := by
                simp [childAt, wrapFields_lookup, hc, isObjLike]
              rw [recursiveProxy_plain, setAtPath_cons_cons]
              simp only [h2, hrec]
            · obtain ⟨c2, hrec⟩ := setAtPath_raw_arr (k2 :: ks2) (.arr es2) v h
              refine ⟨setChild (.proxied (wrapFields fs)) (.fld n) c2, ?_⟩
              have h2 : childAt (.proxied (wrapFields fs)) (.fld n) =
                  some (.arr es2) := by
                simp [childAt, wrapFields_lookup, hc, isObjLike]
              rw [recursiveProxy_plain, setAtPath_cons_cons]
              simp only [h2, hrec]
    · obtain ⟨p2, hp⟩ := setAtPath_raw_arr (k :: rest) (.arr es) v h
      exact ⟨p2, by rw [recursiveProxy_arr]; exact hp⟩

/-! Lemmas about listener removal. -/

theorem filter_ne_idem (l : List CbId) (cb : CbId) :
    (l.filter (· != cb)).filter (· != cb) = l.filter (· != cb) := by
  induction l with
  | nil => rfl
  | cons hd tl ih =>
    by_cases h : hd = cb
    · have hb : (hd != cb) = false := by simp [h]
      simp [List.filter_cons, hb, ih]
    · have hb : (hd != cb) = true := by simp [h]
      simp [List.filter_cons, hb, ih]

theorem setSignal_setSignal (w : World) (s : SigId) (st1 st2 : SignalState) :
    (w.setSignal s st1).setSignal s st2 = w.setSignal s st2 := by
  show ({ w with signals := setSigList w.signals s st1 } : World).setSignal s st2 = _
  unfold World.setSignal
  congr 1
  induction w.signals with
  | nil => rfl
  | cons hd tl ih =>
    obtain ⟨k, v⟩ := hd
    by_cases hk : k = s <;> simp [setSigList, hk, ih]

/-! Claim theorems. -/

/-- C1: for every signal present in the world and every write to
`signal.value`, the write performs a single synchronous notification pass
inside the write step itself: every listener subscribed at the moment of
the write is invoked exactly once (the trace equals the listener set, once
each), the stored payload becomes the written value, and the write
completes normally. -/
theorem claim1_write_value_notifies_each_listener_once
    (w : World) (s : SigId) (st : SignalState) (v : PValue)
    (hs : w.lookupSignal s = some st) :
    (runP (.writeProp s "value" v) w).2.1 = st.listeners.map Ev.invoke ∧
    (runP (.writeProp s "value" v) w).1.lookupSignal s =
      some { st with payload := v } ∧
    (runP (.writeProp s "value" v) w).2.2 = .ok ∧
    (st.listeners.Nodup →
      ∀ cb ∈ st.listeners,
        (runP (.writeProp s "value" v) w).2.1.count (Ev.invoke cb) = 1) := by
  have hrun : runP (.writeProp s "value" v) w =
      (w.setSignal s { st with payload := v }, st.listeners.map Ev.invoke, .ok) := by
    simp [runP, setTrap, hs]
  refine ⟨by rw [hrun], ?_, by rw [hrun], ?_⟩
  · rw [hrun]
    simp [hs]
  · intro hnd cb hcb
    rw [hrun]
    have hinj : Function.Injective Ev.invoke := fun a b hab => by cases hab; rfl
    rw [List.count_map_of_injective st.listeners Ev.invoke hinj cb]
    exact List.count_eq_one_of_mem hnd hcb

def c1w : World :=
  { signals := [(0, ⟨.leaf 7, [3, 4]⟩)], nextId := 1,
    isRunningEffect := false, effectDependencies := [] }

theorem claim1_witness :
    (runP (.writeProp 0 "value" (.leaf 9)) c1w).2.1 = [Ev.invoke 3, Ev.invoke 4] ∧
    (runP (.writeProp 0 "value" (.leaf 9)) c1w).1.lookupSignal 0 =
      some ⟨.leaf 9, [3, 4]⟩ ∧
    (runP (.writeProp 0 "value" (.leaf 9)) c1w).2.2 = .ok ∧
    ((runP (.writeProp 0 "value" (.leaf 9)) c1w).2.1.count (Ev.invoke 3) = 1 ∧
     (runP (.writeProp 0 "value" (.leaf 9)) c1w).2.1.count (Ev.invoke 4) = 1) := by
  have h := claim1_write_value_notifies_each_listener_once c1w 0
    ⟨.leaf 7, [3, 4]⟩ (.leaf 9) rfl
  exact ⟨h.1, h.2.1, h.2.2.1,
    h.2.2.2 (by decide) 3 (by decide), h.2.2.2 (by decide) 4 (by decide)⟩

/-- C5: assigning any property other than `value` on the outer cell is
rejected by the set trap: it reports `false`, the world is unchanged, and
no listener is notified. -/
theorem claim5_non_value_write_rejected
    (w : World) (s : SigId) (prop : String) (v : PValue) (h : prop ≠ "value") :
    setTrap w s prop v = (false, w, []) := by
  simp [setTrap, h]

theorem claim5_witness :
    setTrap c1w 0 "subscribe" (.leaf 9) = (false, c1w, []) :=
  claim5_non_value_write_rejected c1w 0 "subscribe" (.leaf 9) (by decide)

/-- C6: a write of a value equal to the currently stored payload still
notifies every listener, and an immediately repeated identical write
notifies them again: the signal layer has no value-equality
short-circuit. -/
theorem claim6_no_equality_short_circuit
    (w : World) (s : SigId) (st : SignalState) (v : PValue)
    (hs : w.lookupSignal s = some st) (hv : st.payload = v) :
    (runP (.writeProp s "value" v) w).2.1 = st.listeners.map Ev.invoke ∧
    (runP (.writeProp s "value" v)
        (runP (.writeProp s "value" v) w).1).2.1 = st.listeners.map Ev.invoke := by
  have hrun : runP (.writeProp s "value" v) w =
      (w.setSignal s { st with payload := v }, st.listeners.map Ev.invoke, .ok) := by
    simp [runP, setTrap, hs]
  constructor
  · rw [hrun]
  · rw [hrun]
    have hs2 : (w.setSignal s { st with payload := v }).lookupSignal s =
        some { st with payload := v } := by simp [hs]
    simp [runP, setTrap, hs2]

def c6w : World :=
  { signals := [(0, ⟨.leaf 5, [4]⟩)], nextId := 1,
    isRunningEffect := false, effectDependencies := [] }

theorem claim6_witness :
    (runP (.writeProp 0 "value" (.leaf 5)) c6w).2.1 = [Ev.invoke 4] ∧
    (runP (.writeProp 0 "value" (.leaf 5))
        (runP (.writeProp 0 "value" (.leaf 5)) c6w).1).2.1 = [Ev.invoke 4] :=
  claim6_no_equality_short_circuit c6w 0 ⟨.leaf 5, [4]⟩ (.leaf 5) rfl rfl

/-- C10: while the capture flag is set, a signal joins the working set
exactly on reads of its `value` property through the outer get trap:
reading `value` while capturing registers the signal, reading any other
property (such as `subscribe`) registers nothing, reading outside a
capture registers nothing, and the set trap (writes to `value` included)
never changes the working set.  Nested reads below `value` go through the
inner proxies, which have no get trap at all (`childAt` is pure). -/
theorem claim10_get_trap_registers_value_reads_only
    (w : World) (s : SigId) (prop : String) (v : PValue) :
    (w.isRunningEffect = true →
      getTrap w s "value" =
        { w with effectDependencies := addDep w.effectDependencies s }) ∧
    (prop ≠ "value" → getTrap w s prop = w) ∧
    (w.isRunningEffect = false → getTrap w s prop = w) ∧
    (setTrap w s prop v).2.1.effectDependencies = w.effectDependencies := by
  refine ⟨fun hf => by simp [getTrap, hf], fun hp => by simp [getTrap, hp],
    fun hf => by simp [getTrap, hf], setTrap_effectDependencies w s prop v⟩

def c10t : World :=
  { signals := [(0, ⟨.leaf 0, []⟩)], nextId := 1,
    isRunningEffect := true, effectDependencies := [] }

def c10f : World :=
  { signals := [(0, ⟨.leaf 0, []⟩)], nextId := 1,
    isRunningEffect := false, effectDependencies := [] }

theorem claim10_witness :
    getTrap c10t 0 "value" = { c10t with effectDependencies := [0] } ∧
    getTrap c10t 0 "subscribe" = c10t ∧
    getTrap c10f 0 "value" = c10f ∧
    (setTrap c10t 0 "value" (.leaf 9)).2.1.effectDependencies = [] := by
  refine ⟨?_, ?_, ?_, ?_⟩
  · exact (claim10_get_trap_registers_value_reads_only c10t 0 "value" (.leaf 9)).1 rfl
  · exact (claim10_get_trap_registers_value_reads_only c10t 0 "subscribe"
      (.leaf 9)).2.1 (by decide)
  · exact (claim10_get_trap_registers_value_reads_only c10f 0 "value" (.leaf 9)).2.2.1 rfl
  · exact (claim10_get_trap_registers_value_reads_only c10t 0 "value" (.leaf 9)).2.2.2

/-- C2: dependency capture sets the flag, runs the callback once, clears
the flag, and — when the callback returns normally starting from an empty
working set — returns exactly the signals whose `value` was read during
that single run, deduplicated by signal identity in first-read order
(reads in untaken branches never happen, so they are excluded), leaving
the working set empty and the flag cleared afterwards. -/
theorem claim2_capture_returns_first_reads_dedup_in_order
    (body : Prog) (w : World)
    (h0 : w.effectDependencies = [])
    (hok : (runP body { w with isRunningEffect := true }).2.2 = .ok) :
    getDependenciesFromEffect body w =
      .ok (dedupFirst (valueReads (runP body { w with isRunningEffect := true }).2.1),
           { (runP body { w with isRunningEffect := true }).1 with
               isRunningEffect := false, effectDependencies := [] },
           (runP body { w with isRunningEffect := true }).2.1) := by
  have hdeps : (runP body { w with isRunningEffect := true }).1.effectDependencies =
      dedupFirst (valueReads (runP body { w with isRunningEffect := true }).2.1) := by
    rw [runP_deps_true body { w with isRunningEffect := true } rfl]
    rw [show ({ w with isRunningEffect := true } : World).effectDependencies =
      w.effectDependencies from rfl, h0]
    rfl
  simp only [getDependenciesFromEffect, hok, hdeps]

def c2w : World :=
  { signals := [(0, ⟨.leaf 0, []⟩), (1, ⟨.leaf 1, []⟩), (2, ⟨.leaf 2, []⟩)],
    nextId := 3, isRunningEffect := false, effectDependencies := [] }

def c2body : Prog :=
  .seq (.readProp 0 "value")
    (.seq (.readProp 1 "value")
      (.seq (.readProp 0 "value")
        (.branch false (.readProp 2 "value") .skip)))

theorem claim2_witness :
    getDependenciesFromEffect c2body c2w =
      .ok ([0, 1],
           { (runP c2body { c2w with isRunningEffect := true }).1 with
               isRunningEffect := false, effectDependencies := [] },
           [.readEv 0, .readEv 1, .readEv 0]) :=
  claim2_capture_returns_first_reads_dedup_in_order c2body c2w rfl rfl

def c8base : World :=
  { signals := [(0, ⟨.leaf 0, []⟩)], nextId := 1,
    isRunningEffect := false, effectDependencies := [] }

def c8body : Prog := .seq (.readProp 0 "value") .throwErr

def c8err : World :=
  { signals := [(0, ⟨.leaf 0, []⟩)], nextId := 1,
    isRunningEffect := true, effectDependencies := [0] }

/-- C8 counterexample: the claim asserts that when the callback throws
during the initial capture run, the capture flag and the working set are
left cleared.  In the source, `getDependenciesFromEffect` has no
try/finally, so after a callback that reads signal 0 and then throws, the
propagated error state still has `isRunningEffect = true` and the working
set still holds `[0]` — not cleared. -/
theorem claim8_counterexample_no_cleanup_on_throw :
    signalEffect 5 c8body c8base = .error c8err ∧
    c8err.isRunningEffect = true ∧
    c8err.effectDependencies = [0] := ⟨rfl, rfl, rfl⟩

/-- C8 (amended): if the callback throws during the initial capture run,
the exception propagates out of `signalEffect` and no subscriptions are
created (all listener sets are untouched), but there is no cleanup: the
capture flag is left set and the working set retains the signals read
before the throw. -/
theorem claim8_amended_throw_propagates_without_cleanup
    (cb : CbId) (body : Prog) (w : World)
    (hth : (runP body { w with isRunningEffect := true }).2.2 = .threw) :
    signalEffect cb body w =
      .error (runP body { w with isRunningEffect := true }).1 ∧
    (runP body { w with isRunningEffect := true }).1.isRunningEffect = true ∧
    (∀ s2 : SigId,
      ((runP body { w with isRunningEffect := true }).1.lookupSignal s2).map
          SignalState.listeners =
        (w.lookupSignal s2).map SignalState.listeners) ∧
    (runP body { w with isRunningEffect := true }).1.effectDependencies =
      (valueReads (runP body { w with isRunningEffect := true }).2.1).foldl
        addDep w.effectDependencies := by
  refine ⟨?_, ?_, ?_, ?_⟩
  · simp only [signalEffect, getDependenciesFromEffect, hth]
  · rw [runP_isRunningEffect]
  · intro s2
    rw [runP_listeners]
    rfl
  · rw [runP_deps_true body { w with isRunningEffect := true } rfl]

theorem claim8_amended_witness :
    signalEffect 5 c8body c8base =
      .error (runP c8body { c8base with isRunningEffect := true }).1 ∧
    (runP c8body { c8base with isRunningEffect := true }).1.isRunningEffect = true ∧
    (∀ s2 : SigId,
      ((runP c8body { c8base with isRunningEffect := true }).1.lookupSignal s2).map
          SignalState.listeners =
        (c8base.lookupSignal s2).map SignalState.listeners) ∧
    (runP c8body { c8base with isRunningEffect := true }).1.effectDependencies =
      (valueReads (runP c8body { c8base with isRunningEffect := true }).2.1).foldl
        addDep c8base.effectDependencies :=
  claim8_amended_throw_propagates_without_cleanup 5 c8body c8base rfl

/-- C4: for a signal whose payload is the construction-time
`recursiveProxy` wrap of a plain non-array object, assigning through a
path whose final parent is a nested object of the original value (any
depth) fires the same notification pass over the same listener set as a
top-level `value` reassignment, while assigning to an element of an array
stored anywhere in the value fires no notification at all. -/
theorem claim4_nested_object_write_notifies_array_write_does_not
    (w : World) (s : SigId) (st : SignalState) (fs : List (String × PValue))
    (ks : List Key) (v x : PValue)
    (hs : w.lookupSignal s = some st)
    (hpay : st.payload = recursiveProxy (.plain fs)) :
    (objParentPath (.plain fs) ks = true →
      (runP (.writePath s ks v) w).2.1 = .readEv s :: st.listeners.map Ev.invoke ∧
      (runP (.writeProp s "value" x) w).2.1 = st.listeners.map Ev.invoke) ∧
    (arrParentPath (.plain fs) ks = true →
      (runP (.writePath s ks v) w).2.1 = [.readEv s]) := by
  have hlk : (getTrap w s "value").lookupSignal s = some st := by simp [hs]
  constructor
  · intro hobj
    obtain ⟨p2, hset⟩ := setAtPath_wrap_obj ks (.plain fs) v hobj
    rw [← hpay] at hset
    constructor
    · simp only [runP, hlk, hset]
      simp
    · simp [runP, setTrap, hs]
  · intro harr
    obtain ⟨p2, hset⟩ := setAtPath_wrap_arr ks (.plain fs) v harr
    rw [← hpay] at hset
    simp only [runP, hlk, hset]
    simp

def c4fs : List (String × PValue) :=
  [("inner", .plain [("count", .leaf 0)]), ("list", .arr [.leaf 1, .leaf 2])]

def c4w : World :=
  { signals := [(0, ⟨recursiveProxy (.plain c4fs), [7]⟩)], nextId := 1,
    isRunningEffect := false, effectDependencies := [] }

theorem claim4_witness :
    (runP (.writePath 0 [.fld "inner", .fld "count"] (.leaf 1)) c4w).2.1 =
      [Ev.readEv 0, Ev.invoke 7] ∧
    (runP (.writeProp 0 "value" (.leaf 9)) c4w).2.1 = [Ev.invoke 7] ∧
    (runP (.writePath 0 [.fld "list", .idx 0] (.leaf 9)) c4w).2.1 =
      [Ev.readEv 0] := by
  have h1 := (claim4_nested_object_write_notifies_array_write_does_not c4w 0
    ⟨recursiveProxy (.plain c4fs), [7]⟩ c4fs [.fld "inner", .fld "count"]
    (.leaf 1) (.leaf 9) rfl rfl).1 (by decide)
  have h2 := (claim4_nested_object_write_notifies_array_write_does_not c4w 0
    ⟨recursiveProxy (.plain c4fs), [7]⟩ c4fs [.fld "list", .idx 0]
    (.leaf 9) (.leaf 9) rfl rfl).2 (by decide)
  exact ⟨h1.1, h1.2, h2⟩

/-- C9: a property key added to an object-valued signal after construction
is stored as-is, not deep-wrapped: the adding assignment itself notifies
(the root node's set trap fires, and the stored field value is the plain
object, not a proxied one), but a subsequent deeper write below the new
key fires no notification, because wrapping is a one-time
construction-time walk. -/
theorem claim9_new_keys_not_deep_wrapped
    (w : World) (s : SigId) (st : SignalState) (ws fs2 : List (String × PValue))
    (k a : String) (v2 : PValue)
    (hs : w.lookupSignal s = some st)
    (hpay : st.payload = .proxied ws) :
    (runP (.writePath s [.fld k] (.plain fs2)) w).2.1 =
      .readEv s :: st.listeners.map Ev.invoke ∧
    (runP (.writePath s [.fld k] (.plain fs2)) w).1.lookupSignal s =
      some { st with payload := .proxied (setField ws k (.plain fs2)) } ∧
    (runP (.writePath s [.fld k, .fld a] v2)
        ((runP (.writePath s [.fld k] (.plain fs2)) w).1)).2.1 =
      [.readEv s] := by
  have hlk : (getTrap w s "value").lookupSignal s = some st := by simp [hs]
  have hset1 : setAtPath st.payload [.fld k] (.plain fs2) =
      some (.proxied (setField ws k (.plain fs2)), true) := by
    rw [hpay, setAtPath_one]; rfl
  have hrun1 : runP (.writePath s [.fld k] (.plain fs2)) w =
      ((getTrap w s "value").setSignal s
        { st with payload := .proxied (setField ws k (.plain fs2)) },
       .readEv s :: st.listeners.map Ev.invoke, .ok) := by
    simp only [runP, hlk, hset1]
    rfl
  refine ⟨by rw [hrun1], ?_, ?_⟩
  · rw [hrun1]
    simp [hs]
  · rw [hrun1]
    have hlk2 : (getTrap ((getTrap w s "value").setSignal s
        { st with payload := .proxied (setField ws k (.plain fs2)) }) s
          "value").lookupSignal s =
        some { st with payload := .proxied (setField ws k (.plain fs2)) } := by
      simp [hs]
    have hchild : childAt (.proxied (setField ws k (.plain fs2))) (.fld k) =
        some (.plain fs2) := setField_lookup_self ws k (.plain fs2)
    have hset2 : setAtPath (.proxied (setField ws k (.plain fs2)))
        [.fld k, .fld a] v2 =
        some (setChild (.proxied (setField ws k (.plain fs2))) (.fld k)
          (.plain (setField fs2 a v2)), false) := by
      rw [setAtPath_cons_cons]
      simp only [hchild, setAtPath_one]
      rfl
    simp only [runP, hlk2, hset2]
    simp

def c9w : World :=
  { signals := [(0, ⟨.proxied [("x", .leaf 0)], [7]⟩)], nextId := 1,
    isRunningEffect := false, effectDependencies := [] }

theorem claim9_witness :
    (runP (.writePath 0 [.fld "newKey"] (.plain [("a", .leaf 1)])) c9w).2.1 =
      [Ev.readEv 0, Ev.invoke 7] ∧
    (runP (.writePath 0 [.fld "newKey"] (.plain [("a", .leaf 1)])) c9w).1.lookupSignal 0 =
      some ⟨.proxied [("x", .leaf 0), ("newKey", .plain [("a", .leaf 1)])], [7]⟩ ∧
    (runP (.writePath 0 [.fld "newKey", .fld "a"] (.leaf 2))
        ((runP (.writePath 0 [.fld "newKey"] (.plain [("a", .leaf 1)])) c9w).1)).2.1 =
      [Ev.readEv 0] :=
  claim9_new_keys_not_deep_wrapped c9w 0 ⟨.proxied [("x", .leaf 0)], [7]⟩
    [("x", .leaf 0)] [("a", .leaf 1)] "newKey" "a" (.leaf 2) rfl rfl

/-- C7: after running the unsubscribe closure returned by
`signal.subscribe`, the removed callback is never invoked by a subsequent
write to that signal (including a write issued immediately after
unsubscribing), and running the unsubscribe closure a second time is a
no-op, not an error. -/
theorem claim7_unsubscribe_stops_notifications_and_is_idempotent
    (w : World) (s : SigId) (st : SignalState) (cb : CbId) (v : PValue)
    (hs : w.lookupSignal s = some st) :
    Ev.invoke cb ∉ (runP (.writeProp s "value" v) (unsubscribeFn w s cb)).2.1 ∧
    unsubscribeFn (unsubscribeFn w s cb) s cb = unsubscribeFn w s cb := by
  have hw1 : unsubscribeFn w s cb =
      w.setSignal s { st with listeners := st.listeners.filter (· != cb) } := by
    simp only [unsubscribeFn, hs]
  have hlk1 : (unsubscribeFn w s cb).lookupSignal s =
      some { st with listeners := st.listeners.filter (· != cb) } := by
    rw [hw1]; simp [hs]
  constructor
  · have htr : (runP (.writeProp s "value" v) (unsubscribeFn w s cb)).2.1 =
        (st.listeners.filter (· != cb)).map Ev.invoke := by
      simp [runP, setTrap, hlk1]
    rw [htr]
    simp only [List.mem_map, List.mem_filter, not_exists]
    rintro a ⟨⟨ha, hne⟩, hinv⟩
    cases hinv
    simp at hne
  · rw [hw1]
    have hlk2 : (w.setSignal s
        { st with listeners := st.listeners.filter (· != cb) }).lookupSignal s =
        some { st with listeners := st.listeners.filter (· != cb) } := by
      simp [hs]
    simp only [unsubscribeFn, hlk2]
    rw [filter_ne_idem, setSignal_setSignal]

def c7w : World :=
  { signals := [(0, ⟨.leaf 0, [4, 6]⟩)], nextId := 1,
    isRunningEffect := false, effectDependencies := [] }

theorem claim7_witness :
    Ev.invoke 4 ∉ (runP (.writeProp 0 "value" (.leaf 1)) (unsubscribeFn c7w 0 4)).2.1 ∧
    unsubscribeFn (unsubscribeFn c7w 0 4) 0 4 = unsubscribeFn c7w 0 4 :=
  claim7_unsubscribe_stops_notifications_and_is_idempotent c7w 0
    ⟨.leaf 0, [4, 6]⟩ 4 (.leaf 1) rfl

def effWorld0 : World :=
  { signals := [], nextId := 0, isRunningEffect := false, effectDependencies := [] }

def c3setup (v1 v2 v3 : Int) : World :=
  (createSignal (createSignal (createSignal effWorld0 (.leaf v1)).2 (.leaf v2)).2
    (.leaf v3)).2

def c3body : Prog := .seq (.readProp 0 "value") (.readProp 1 "value")

def c3active (cb : CbId) (v1 v2 v3 : Int) : World :=
  { signals := [(0, ⟨.leaf v1, [cb]⟩), (1, ⟨.leaf v2, [cb]⟩), (2, ⟨.leaf v3, []⟩)],
    nextId := 3, isRunningEffect := false, effectDependencies := [] }

/-- C3: registering an effect whose first run reads signals 0 and 1
subscribes the callback to exactly those two; afterwards every write to
either re-invokes the callback (unconditionally, with no change
filtering), a write to the unread signal 2 never invokes it, and
re-running the callback after registration — even a run reading a
different signal — changes nothing: the world (hence the captured
subscriptions and the empty working set) stays exactly the same. -/
theorem claim3_effect_subscribes_exactly_first_run_reads
    (cb : CbId) (v1 v2 v3 x : Int) :
    signalEffect cb c3body (c3setup v1 v2 v3) = .ok (c3active cb v1 v2 v3, [0, 1]) ∧
    (runP (.writeProp 0 "value" (.leaf x)) (c3active cb v1 v2 v3)).2.1 =
      [.invoke cb] ∧
    (runP (.writeProp 1 "value" (.leaf x)) (c3active cb v1 v2 v3)).2.1 =
      [.invoke cb] ∧
    (runP (.writeProp 2 "value" (.leaf x)) (c3active cb v1 v2 v3)).2.1 = [] ∧
    runP c3body (c3active cb v1 v2 v3) =
      (c3active cb v1 v2 v3, [.readEv 0, .readEv 1], .ok) ∧
    runP (.readProp 2 "value") (c3active cb v1 v2 v3) =
      (c3active cb v1 v2 v3, [.readEv 2], .ok) := by
  refine ⟨?_, ?_, ?_, ?_, ?_, ?_⟩ <;> rfl

end ProxySignal
